import Mathlib

/-!
Verification of the dext query dispatch and ranking engine
(src/app/main/index.js) against its natural-language specification.

The embedding translates the routing, ranking, filtering and detail-cache
logic of handleQueryCommand and handleItemDetailsRequest into executable
Lean definitions.  External collaborators that are not part of the
repository source (the string fuzzy scorer, the provider functions
queryResults and queryHelper, the persistent cache store, the MAX_RESULTS
constant) are taken as parameters, constrained only where the spec
constrains them.
-/

namespace Dext

/-- Plugin descriptor as consumed by handleQueryCommand: path, display
name, core flag and an optional routing keyword.  The schema and action
fields are passed through untouched by the engine and are omitted. -/
structure Plugin where
  path : String
  name : String
  isCore : Bool
  keyword : Option String
deriving DecidableEq

/-- Result item produced by a plugin.  The engine reads only the title
(for scoring); every other field is opaque payload, represented here by
a single arg field. -/
structure Item where
  title : Option String
  arg : String
deriving DecidableEq

/-- Truthiness of the keyword field in the source condition
(!p.keyword): absent keywords and the empty string are falsy. -/
def kwTruthy : Option String → Bool
  | none => false
  | some s => !s.isEmpty

/-- The routing predicate from the source filter: a plugin matches when
its keyword is falsy, or when it equals the first token of the query. -/
def matchesKeyword (keyword : String) (p : Plugin) : Bool :=
  !(kwTruthy p.keyword) || (p.keyword == some keyword)

/-- Splitting a character list on the space character, mirroring the
semantics of splitting a JS string with a single-space separator:
empty input yields one empty fragment, adjacent separators yield empty
fragments. -/
def splitChars : List Char → List Char → List String
  | [], acc => [String.mk acc.reverse]
  | c :: cs, acc =>
    if c = ' ' then String.mk acc.reverse :: splitChars cs []
    else splitChars cs (c :: acc)

/-- The fractions local of handleQueryCommand: the phrase split on
single spaces. -/
def fractionsOf (phrase : String) : List String :=
  splitChars phrase.data []

/-- The keyword local: the first whitespace-delimited token (the split
of a string is never empty, so the default is never used). -/
def keywordOf (phrase : String) : String :=
  (fractionsOf phrase).headD ""

/-- The args local: all tokens after the first. -/
def argsOf (phrase : String) : List String :=
  (fractionsOf phrase).tail

/-- Joining a token list with single spaces, mirroring joining a JS
array with a space separator. -/
def joinSpace : List String → String
  | [] => ""
  | x :: xs =>
    match xs with
    | [] => x
    | _ :: _ => x ++ " " ++ joinSpace xs

/-- Whitespace trimming at both ends of a string. -/
def trimStr (s : String) : String :=
  String.mk (((s.data.dropWhile Char.isWhitespace).reverse.dropWhile Char.isWhitespace).reverse)

/-- The queryString local: the args rejoined and trimmed. -/
def queryStringOf (phrase : String) : String :=
  trimStr (joinSpace (argsOf phrase))

/-- The matchedPlugins local: plugins whose keyword is falsy or equal to
the first token. -/
def matchedPlugins (plugins : List Plugin) (phrase : String) : List Plugin :=
  plugins.filter (matchesKeyword (keywordOf phrase))

/-- The display mode computed per matched plugin. -/
inductive Display
  | helper
  | results
deriving DecidableEq

/-- The display selection of the source: default results; a core plugin
whose keyword is falsy or matching stays on results; otherwise a truthy
keyword with an empty queryString selects helper. -/
def displayFor (phrase : String) (p : Plugin) : Display :=
  if p.isCore && matchesKeyword (keywordOf phrase) p then Display.results
  else if kwTruthy p.keyword && (queryStringOf phrase).isEmpty then Display.helper
  else Display.results

/-- One provider call as issued by the fan-out: a helper call carrying
the keyword, or a results call carrying a token list. -/
inductive ProviderCall
  | helper (keyword : String)
  | results (args : List String)
deriving DecidableEq

/-- The provider call pushed for one matched plugin: helper receives the
keyword; results receives the full fractions for keyword-less plugins
and the stripped args otherwise. -/
def decisionFor (phrase : String) (p : Plugin) : ProviderCall :=
  match displayFor phrase p with
  | Display.helper => ProviderCall.helper (keywordOf phrase)
  | Display.results =>
    if kwTruthy p.keyword then ProviderCall.results (argsOf phrase)
    else ProviderCall.results (fractionsOf phrase)

/-- The full routing step of handleQueryCommand: when matchedPlugins is
non-empty, one call per matched plugin; otherwise the fallback loop,
which pushes a results call with the full fractions for every plugin
satisfying isCore together with the keyword re-check of the source. -/
def routePlugins (plugins : List Plugin) (phrase : String) : List (Plugin × ProviderCall) :=
  if (matchedPlugins plugins phrase).isEmpty then
    (plugins.filter (fun p => p.isCore && matchesKeyword (keywordOf phrase) p)).map
      (fun p => (p, ProviderCall.results (fractionsOf phrase)))
  else
    (matchedPlugins plugins phrase).map (fun p => (p, decisionFor phrase p))

/-- ASCII lower-casing of a string, modelling the toLowerCase call of
the source on plugin titles. -/
def lowerStr (s : String) : String :=
  String.mk (s.data.map Char.toLower)

/-- The score computed for one item in the sort and filter callbacks:
the fuzzy scorer applied to the lower-cased title and the raw first
token of the query.  The scorer itself (the string fuzzy scoring
library) is not part of the repository source and is a parameter; the
default for an absent title is never reached because the pipeline fails
first on such an item. -/
def itemScore (scorer : String → String → ℚ) (keyword : String) (i : Item) : ℚ :=
  scorer (lowerStr (i.title.getD "")) keyword

/-- The sort comparator of the source: 0 on equal scores, 1 when the
first score is lower, otherwise -1 (descending order). -/
def compareByScore (score : Item → ℚ) (a b : Item) : Int :=
  if score a = score b then 0
  else if score a < score b then 1
  else -1

/-- Insertion of an element into a list sorted by the comparator,
placing it before the first element it compares at most equal to.  This
is the stable-sort insertion step. -/
def jsOrderedInsert (score : Item → ℚ) (a : Item) : List Item → List Item
  | [] => [a]
  | b :: l =>
    if compareByScore score a b ≤ 0 then a :: b :: l
    else b :: jsOrderedInsert score a l

/-- Stable sort by the comparator, modelling the array sort of the
runtime (stable per the ECMAScript 2019 semantics): any stable sorting
algorithm with a consistent comparator produces this result. -/
def jsSortByScore (score : Item → ℚ) : List Item → List Item
  | [] => []
  | a :: l => jsOrderedInsert score a (jsSortByScore score l)

/-- The filter predicate of the source: a score of zero is kept by
default, any other score must be strictly greater than one quarter. -/
def keepItem (score : Item → ℚ) (i : Item) : Bool :=
  if score i = 0 then true else decide ((1 : ℚ) / 4 < score i)

/-- The ranking pass applied to the flattened result set: sort by
descending score, filter by the threshold, keep at most maxResults
items.  The maxResults bound models the MAX_RESULTS constant, which is
defined outside the source under verification. -/
def rankedOutput (score : Item → ℚ) (maxResults : Nat) (items : List Item) : List Item :=
  ((jsSortByScore score items).filter (keepItem score)).take maxResults

/-- The ways the promise chain of handleQueryCommand can reject: a
provider rejection propagated by the all-join, the TypeError raised by
reducing an empty result-set array with no initial value, and the
TypeError raised by lower-casing an absent title. -/
inductive QueryError (ε : Type) where
  | provider (e : ε)
  | emptyReduce
  | missingTitle
deriving DecidableEq

/-- Interpreting one routed call with the two provider functions. -/
def runCall (qr : Plugin → List String → Except ε (List Item))
    (qh : Plugin → String → Except ε (List Item)) :
    Plugin × ProviderCall → Except ε (List Item)
  | (p, ProviderCall.helper kw) => qh p kw
  | (p, ProviderCall.results as) => qr p as

/-- The all-join over the issued provider calls: the first rejection
rejects the whole join, otherwise all result arrays are collected in
call order. -/
def sequenceCalls : List (Except ε (List Item)) → Except ε (List (List Item))
  | [] => Except.ok []
  | x :: xs =>
    match x with
    | Except.error e => Except.error e
    | Except.ok v => (sequenceCalls xs).map (fun vs => v :: vs)

/-- The full query handler: route, fan out, join, flatten by the
initial-value-free reduce (which throws on an empty array), then rank.
In the source the missing-title TypeError is raised inside the sort or
filter callbacks; the model surfaces it before ranking, which is
observationally equal: the pipeline rejects exactly when some item has
no title, and otherwise the callbacks are pure and the value agrees. -/
def handleQueryCommand (scorer : String → String → ℚ) (maxResults : Nat)
    (qr : Plugin → List String → Except ε (List Item))
    (qh : Plugin → String → Except ε (List Item))
    (plugins : List Plugin) (phrase : String) :
    Except (QueryError ε) (List Item) :=
  match sequenceCalls ((routePlugins plugins phrase).map (runCall qr qh)) with
  | Except.error e => Except.error (QueryError.provider e)
  | Except.ok [] => Except.error QueryError.emptyReduce
  | Except.ok (r :: rs) =>
    let flat := rs.foldl (fun prev next => prev ++ next) r
    if flat.all (fun i => i.title.isSome) then
      Except.ok (rankedOutput (itemScore scorer (keywordOf phrase)) maxResults flat)
    else
      Except.error QueryError.missingTitle

/-- Basename of a path: everything after the last slash, modelling the
basename call used to derive the cache namespace. -/
def basename (s : String) : String :=
  String.mk ((s.data.reverse.takeWhile (fun c => c ≠ '/')).reverse)

/-- The persistent cache store: an association from a namespace and key
pair to a stored value, newest entry first.  Writing prepends, reading
takes the newest entry, so a write for an existing pair overwrites it
and no operation ever removes an entry, matching a set-only persistent
key-value store. -/
abbrev Cache : Type :=
  List ((String × String) × String)

/-- Reading the cache at a namespace and key. -/
def cacheGet (c : Cache) (ns key : String) : Option String :=
  (c.find? (fun e => e.1 == (ns, key))).map (fun e => e.2)

/-- Writing the cache at a namespace and key. -/
def cacheSet (c : Cache) (ns key v : String) : Cache :=
  ((ns, key), v) :: c

/-- The cache namespace of handleItemDetailsRequest: the basename of
the plugin path of the item with the itemDetails marker suffixed. -/
def detailNamespace (pluginPath : α → String) (item : α) : String :=
  basename (pluginPath item) ++ "-itemDetails"

/-- Everything observable about one handled detail request: the cache
state after the request, the content delivered to the requester, and
whether the plugin detail entry point was invoked. -/
structure DetailResponse where
  cache : Cache
  content : String
  invokedPlugin : Bool

/-- The detail handler: the item payload type is abstract, with its
plugin path projection, its structural serialization (the cache key)
and the plugin detail entry point as parameters, since item shapes,
the serializer and plugin modules are outside the source under
verification.  A cache hit answers with the stored content without
invoking the plugin; a miss invokes the plugin; in both cases the
delivered content is then written back under the same key before the
response is sent. -/
def handleItemDetailsRequest (pluginPath stringify : α → String)
    (retrieve : α → String) (c : Cache) (item : α) : DetailResponse :=
  match cacheGet c (detailNamespace pluginPath item) (stringify item) with
  | some content =>
    ⟨cacheSet c (detailNamespace pluginPath item) (stringify item) content, content, false⟩
  | none =>
    ⟨cacheSet c (detailNamespace pluginPath item) (stringify item) (retrieve item),
      retrieve item, true⟩

/-- Sequential processing of a batch of detail requests, threading the
cache state. -/
def processRequests (pluginPath stringify : α → String) (retrieve : α → String) :
    Cache → List α → Cache
  | c, [] => c
  | c, it :: rest =>
    processRequests pluginPath stringify retrieve
      (handleItemDetailsRequest pluginPath stringify retrieve c it).cache rest

/-- Two items that differ at most in the letter case of their titles:
the lower-cased titles agree and the opaque payload agrees. -/
def CaseEq (a b : Item) : Prop :=
  a.title.map lowerStr = b.title.map lowerStr ∧ a.arg = b.arg

/-- A core plugin declaring the keyword calc, used as a concrete
routing input. -/
def wPlugCalc : Plugin :=
  ⟨"/p/core", "core", true, some "calc"⟩

/-- A keyword-less core plugin, used as a concrete routing input. -/
def wPlugNoKw : Plugin :=
  ⟨"/p/core", "core", true, none⟩

/-- A non-core plugin declaring the keyword calc, used as a concrete
routing input. -/
def wCalcUser : Plugin :=
  ⟨"/p/calc", "calc", false, some "calc"⟩

/-- A concrete well-formed item. -/
def wItemA : Item :=
  ⟨some "alpha", "a"⟩

/-- A second concrete well-formed item. -/
def wItemB : Item :=
  ⟨some "beta", "b"⟩

/-- A concrete item with an absent title. -/
def wBadItem : Item :=
  ⟨none, "x"⟩

/-- A concrete scorer that gives every pair score zero. -/
def wScorer0 : String → String → ℚ :=
  fun _ _ => 0

/-- A concrete scorer that gives every pair score one half; it is
trivially invariant under case normalization. -/
def wScorerHalf : String → String → ℚ :=
  fun _ _ => 1 / 2

/-- A concrete results provider that returns one item with an absent
title. -/
def wQrOkBad : Plugin → List String → Except String (List Item) :=
  fun _ _ => Except.ok [wBadItem]

/-- A concrete helper provider that returns no items. -/
def wQhOkNil : Plugin → String → Except String (List Item) :=
  fun _ _ => Except.ok []

/-- A concrete results provider that always rejects. -/
def wQrErr : Plugin → List String → Except String (List Item) :=
  fun _ _ => Except.error "boom"

/-- A concrete helper provider that always rejects. -/
def wQhErr : Plugin → String → Except String (List Item) :=
  fun _ _ => Except.error "boom"

/-- A concrete plugin-path projection on a two-valued payload type. -/
def wPathB : Bool → String :=
  fun _ => "plugins/demo"

/-- A concrete injective serialization on a two-valued payload type. -/
def wStringifyB : Bool → String :=
  fun b => if b then "T" else "F"

/-- A concrete detail entry point on a two-valued payload type. -/
def wRetrieveB : Bool → String :=
  fun _ => "demo-details"

/-- The comparator is at most zero exactly when the first score is at
least the second, so the comparator orders by descending score. -/
theorem compareByScore_nonpos (score : Item → ℚ) (a b : Item) :
    compareByScore score a b ≤ 0 ↔ score b ≤ score a := by
  unfold compareByScore
  by_cases h1 : score a = score b
  · simp [h1]
  · by_cases h2 : score a < score b
    · simp only [h1, if_false, h2, if_true]
      constructor
      · intro h; omega
      · intro h; exact absurd (lt_of_le_of_lt h h2) (lt_irrefl _)
    · simp only [h1, if_false, h2, if_true]
      constructor
      · intro _; exact le_of_not_lt h2
      · intro _; omega

/-- Membership in the insertion step. -/
theorem mem_jsOrderedInsert (score : Item → ℚ) (a x : Item) (l : List Item) :
    x ∈ jsOrderedInsert score a l ↔ x = a ∨ x ∈ l := by
  induction l with
  | nil => simp [jsOrderedInsert]
  | cons b t ih =>
    unfold jsOrderedInsert
    by_cases h : compareByScore score a b ≤ 0
    · simp [h]
    · simp [h, ih]
      tauto

/-- The insertion step preserves descending order. -/
theorem pairwise_jsOrderedInsert (score : Item → ℚ) (a : Item) (l : List Item)
    (h : List.Pairwise (fun x y => score y ≤ score x) l) :
    List.Pairwise (fun x y => score y ≤ score x) (jsOrderedInsert score a l) := by
  induction l with
  | nil => simp [jsOrderedInsert]
  | cons b t ih =>
    unfold jsOrderedInsert
    by_cases hc : compareByScore score a b ≤ 0
    · simp only [hc, if_true]
      have hab : score b ≤ score a := (compareByScore_nonpos score a b).mp hc
      rw [List.pairwise_cons]
      refine ⟨?_, h⟩
      intro y hy
      rcases List.mem_cons.mp hy with rfl | hy
      · exact hab
      · exact le_trans ((List.pairwise_cons.mp h).1 y hy) hab
    · simp only [hc, if_false]
      rw [List.pairwise_cons] at h ⊢
      constructor
      · intro y hy
        rw [mem_jsOrderedInsert] at hy
        rcases hy with hy | hy
        · rw [hy]
          exact le_of_lt (lt_of_not_le ((compareByScore_nonpos score a b).not.mp hc))
        · exact h.1 y hy
      · exact ih h.2

/-- The stable sort produces a sequence with non-increasing scores. -/
theorem pairwise_jsSortByScore (score : Item → ℚ) (l : List Item) :
    List.Pairwise (fun x y => score y ≤ score x) (jsSortByScore score l) := by
  induction l with
  | nil => simp [jsSortByScore]
  | cons a t ih =>
    simp only [jsSortByScore]
    exact pairwise_jsOrderedInsert score a _ ih

/-- Inserting an element whose score differs from s does not change the
subsequence of elements with score s. -/
theorem filter_jsOrderedInsert_ne (score : Item → ℚ) (s : ℚ) (a : Item) (l : List Item)
    (h : score a ≠ s) :
    (jsOrderedInsert score a l).filter (fun i => decide (score i = s)) =
      l.filter (fun i => decide (score i = s)) := by
  induction l with
  | nil => simp [jsOrderedInsert, h]
  | cons b t ih =>
    unfold jsOrderedInsert
    by_cases hc : compareByScore score a b ≤ 0
    · simp [hc, h]
    · simp only [hc, if_false]
      rw [List.filter_cons, List.filter_cons, ih]

/-- Inserting an element with score s places it in front of every
element with score s already present: the insertion point lies before
all of them because elements passed over have strictly greater score. -/
theorem filter_jsOrderedInsert_eq (score : Item → ℚ) (s : ℚ) (a : Item) (l : List Item)
    (h : score a = s) :
    (jsOrderedInsert score a l).filter (fun i => decide (score i = s)) =
      a :: l.filter (fun i => decide (score i = s)) := by
  induction l with
  | nil => simp [jsOrderedInsert, h]
  | cons b t ih =>
    unfold jsOrderedInsert
    by_cases hc : compareByScore score a b ≤ 0
    · simp [hc, h]
    · have hb : score a < score b :=
        lt_of_not_le ((compareByScore_nonpos score a b).not.mp hc)
      have hbne : ¬ (score b = s) := by
        intro he
        rw [← h] at he
        exact absurd he (ne_of_gt hb)
      simp only [hc, if_false]
      rw [List.filter_cons, List.filter_cons]
      simp only [hbne, decide_eq_true_eq, if_false]
      simpa using ih

/-- Stability of the sort: the subsequence of elements with any fixed
score s is unchanged by sorting. -/
theorem filter_jsSortByScore (score : Item → ℚ) (s : ℚ) (l : List Item) :
    (jsSortByScore score l).filter (fun i => decide (score i = s)) =
      l.filter (fun i => decide (score i = s)) := by
  induction l with
  | nil => simp [jsSortByScore]
  | cons a t ih =>
    unfold jsSortByScore
    by_cases h : score a = s
    · rw [filter_jsOrderedInsert_eq score s a _ h, ih, List.filter_cons]
      simp [h]
    · rw [filter_jsOrderedInsert_ne score s a _ h, ih, List.filter_cons]
      simp [h]

/-- The filter predicate holds exactly for score zero or score above
one quarter. -/
theorem keepItem_iff (score : Item → ℚ) (i : Item) :
    keepItem score i = true ↔ (score i = 0 ∨ (1 : ℚ) / 4 < score i) := by
  unfold keepItem
  by_cases h : score i = 0 <;> simp [h]

/-- The delivered sequence is a subsequence of the sorted sequence. -/
theorem rankedOutput_sublist_sort (score : Item → ℚ) (n : Nat) (items : List Item) :
    List.Sublist (rankedOutput score n items) (jsSortByScore score items) := by
  simp only [rankedOutput]
  exact (List.take_sublist _ _).trans (List.filter_sublist _)

/-- If some call in the list rejected, the all-join rejects. -/
theorem sequenceCalls_error {ε : Type} (l : List (Except ε (List Item)))
    (h : ∃ x ∈ l, ∃ e, x = Except.error e) :
    ∃ e2, sequenceCalls l = Except.error e2 := by
  induction l with
  | nil =>
    rcases h with ⟨x, hx, _⟩
    exact absurd hx (List.not_mem_nil x)
  | cons x xs ih =>
    cases x with
    | error e0 => exact ⟨e0, rfl⟩
    | ok v =>
      rcases h with ⟨y, hy, e, hye⟩
      rcases List.mem_cons.mp hy with rfl | hy2
      · simp at hye
      · rcases ih ⟨y, hy2, e, hye⟩ with ⟨e2, hseq⟩
        exact ⟨e2, by simp [sequenceCalls, hseq, Except.map]⟩

/-- Insertion respects pointwise score-preserving relations between two
lists: related inputs insert at the same position. -/
theorem forall2_jsOrderedInsert {R : Item → Item → Prop} {score : Item → ℚ}
    (hR : ∀ x y, R x y → score x = score y) {a b : Item} (hab : R a b)
    {l m : List Item} (h : List.Forall₂ R l m) :
    List.Forall₂ R (jsOrderedInsert score a l) (jsOrderedInsert score b m) := by
  induction h with
  | nil =>
    simp only [jsOrderedInsert]
    exact List.Forall₂.cons hab List.Forall₂.nil
  | @cons x y l2 m2 hxy htail ih =>
    unfold jsOrderedInsert
    have hcmp : compareByScore score a x = compareByScore score b y := by
      unfold compareByScore
      rw [hR _ _ hab, hR _ _ hxy]
    rw [hcmp]
    by_cases hc : compareByScore score b y ≤ 0
    · simp only [hc, if_true]
      exact List.Forall₂.cons hab (List.Forall₂.cons hxy htail)
    · simp only [hc, if_false]
      exact List.Forall₂.cons hxy ih

/-- Sorting respects pointwise score-preserving relations. -/
theorem forall2_jsSortByScore {R : Item → Item → Prop} {score : Item → ℚ}
    (hR : ∀ x y, R x y → score x = score y)
    {l m : List Item} (h : List.Forall₂ R l m) :
    List.Forall₂ R (jsSortByScore score l) (jsSortByScore score m) := by
  induction h with
  | nil => exact List.Forall₂.nil
  | @cons x y l2 m2 hxy htail ih =>
    simp only [jsSortByScore]
    exact forall2_jsOrderedInsert hR hxy ih

/-- Filtering respects pointwise score-preserving relations. -/
theorem forall2_filter_keepItem {R : Item → Item → Prop} {score : Item → ℚ}
    (hR : ∀ x y, R x y → score x = score y)
    {l m : List Item} (h : List.Forall₂ R l m) :
    List.Forall₂ R (l.filter (keepItem score)) (m.filter (keepItem score)) := by
  induction h with
  | nil => exact List.Forall₂.nil
  | @cons x y l2 m2 hxy htail ih =>
    have hk : keepItem score x = keepItem score y := by
      unfold keepItem
      rw [hR x y hxy]
    rw [List.filter_cons, List.filter_cons, hk]
    cases hb : keepItem score y
    · simp only [Bool.false_eq_true, if_false]
      exact ih
    · simp only [if_true]
      exact List.Forall₂.cons hxy ih

/-- Truncation respects pointwise relations. -/
theorem forall2_take {R : Item → Item → Prop} (n : Nat)
    {l m : List Item} (h : List.Forall₂ R l m) :
    List.Forall₂ R (l.take n) (m.take n) := by
  induction h generalizing n with
  | nil => simp
  | @cons x y l2 m2 hxy htail ih =>
    cases n with
    | zero => simp
    | succ k =>
      simp only [List.take_succ_cons]
      exact List.Forall₂.cons hxy (ih k)

/-- The whole ranking pass respects pointwise score-preserving
relations: related inputs produce pointwise related outputs in the
same order. -/
theorem forall2_rankedOutput {R : Item → Item → Prop} {score : Item → ℚ}
    (hR : ∀ x y, R x y → score x = score y) (n : Nat)
    {l m : List Item} (h : List.Forall₂ R l m) :
    List.Forall₂ R (rankedOutput score n l) (rankedOutput score n m) :=
  forall2_take n (forall2_filter_keepItem hR (forall2_jsSortByScore hR h))

/-- For a scorer satisfying the case-normalization contract, changing
only the letter case of the keyword never changes an item score. -/
theorem itemScore_keyword_congr (scorer : String → String → ℚ)
    (hs : ∀ c q, scorer c q = scorer (lowerStr c) (lowerStr q))
    (kw kw2 : String) (hk : lowerStr kw = lowerStr kw2) (i : Item) :
    itemScore scorer kw i = itemScore scorer kw2 i := by
  unfold itemScore
  rw [hs (lowerStr (i.title.getD "")) kw, hk, ← hs (lowerStr (i.title.getD "")) kw2]

/-- Items whose titles agree up to letter case have equal lower-cased
title strings. -/
theorem lowerStr_title_congr {a b : Item} (h : a.title.map lowerStr = b.title.map lowerStr) :
    lowerStr (a.title.getD "") = lowerStr (b.title.getD "") := by
  cases ha : a.title with
  | none =>
    cases hb : b.title with
    | none => rfl
    | some u => rw [ha, hb] at h; simp at h
  | some t =>
    cases hb : b.title with
    | none => rw [ha, hb] at h; simp at h
    | some u =>
      rw [ha, hb] at h
      simp only [Option.map] at h
      rw [Option.some.injEq] at h
      simpa using h

/-- Changing only the letter case of a title never changes the item
score, because the source lower-cases the title before scoring. -/
theorem itemScore_caseEq (scorer : String → String → ℚ) (kw : String)
    {a b : Item} (h : CaseEq a b) :
    itemScore scorer kw a = itemScore scorer kw b := by
  unfold itemScore
  rw [lowerStr_title_congr h.1]

/-- A write is visible at its own namespace and key. -/
theorem cacheGet_cacheSet_same (c : Cache) (ns key v : String) :
    cacheGet (cacheSet c ns key v) ns key = some v := by
  simp [cacheGet, cacheSet, List.find?]

/-- A write at a different namespace and key pair leaves a read
unchanged. -/
theorem cacheGet_cacheSet_ne (c : Cache) (ns key ns2 key2 v : String)
    (h : (ns2, key2) ≠ (ns, key)) :
    cacheGet (cacheSet c ns2 key2 v) ns key = cacheGet c ns key := by
  have hb : (((ns2, key2), v).1 == (ns, key)) = false := by
    simp only [beq_eq_false_iff_ne]
    exact h
  simp [cacheGet, cacheSet, List.find?, hb]

/-- After one handled detail request, the cache maps the item key of
that request to exactly the content that was delivered. -/
theorem cacheGet_handle_self {α : Type} (pluginPath stringify : α → String)
    (retrieve : α → String) (c : Cache) (item : α) :
    cacheGet (handleItemDetailsRequest pluginPath stringify retrieve c item).cache
        (detailNamespace pluginPath item) (stringify item)
      = some (handleItemDetailsRequest pluginPath stringify retrieve c item).content := by
  rcases hc : cacheGet c (detailNamespace pluginPath item) (stringify item) with _ | w <;>
    simp only [handleItemDetailsRequest, hc] <;>
    exact cacheGet_cacheSet_same _ _ _ _

/-- A request whose key is cached is answered from the cache: the
stored value is delivered, re-written under the same key, and the
plugin entry point is not invoked. -/
theorem handle_of_hit {α : Type} (pluginPath stringify : α → String)
    (retrieve : α → String) (c : Cache) (item : α) (v : String)
    (h : cacheGet c (detailNamespace pluginPath item) (stringify item) = some v) :
    handleItemDetailsRequest pluginPath stringify retrieve c item
      = ⟨cacheSet c (detailNamespace pluginPath item) (stringify item) v, v, false⟩ := by
  simp only [handleItemDetailsRequest, h]

/-- Processing any batch of further requests preserves a cached entry:
no operation removes entries, a request for the same payload re-writes
the same value, and by injectivity of the serialization a request for
any other payload touches a different key. -/
theorem cacheGet_processRequests {α : Type} (pluginPath stringify : α → String)
    (retrieve : α → String) (hinj : Function.Injective stringify)
    (item : α) (v : String) :
    ∀ (reqs : List α) (c : Cache),
      cacheGet c (detailNamespace pluginPath item) (stringify item) = some v →
      cacheGet (processRequests pluginPath stringify retrieve c reqs)
          (detailNamespace pluginPath item) (stringify item) = some v := by
  intro reqs
  induction reqs with
  | nil =>
    intro c h
    simpa [processRequests] using h
  | cons it rest ih =>
    intro c h
    simp only [processRequests]
    apply ih
    by_cases heq : stringify it = stringify item
    · have hit : it = item := hinj heq
      rw [hit]
      rw [handle_of_hit pluginPath stringify retrieve c item v h]
      exact cacheGet_cacheSet_same _ _ _ _
    · have hpair : (detailNamespace pluginPath it, stringify it)
          ≠ (detailNamespace pluginPath item, stringify item) := by
        intro hcon
        exact heq (congrArg Prod.snd hcon)
      rcases hc : cacheGet c (detailNamespace pluginPath it) (stringify it) with _ | w <;>
        simp only [handleItemDetailsRequest, hc] <;>
        rw [cacheGet_cacheSet_ne _ _ _ _ _ _ hpair] <;>
        exact h

/-- C1, evaluated at the failing input: for the query whose first token
matches no plugin keyword, the fallback branch routes to no plugin at
all, even though an isCore plugin is present, because the fallback
re-checks the keyword match that is false for every plugin whenever the
matched set is empty.  The claim (and the source comments) expect the
isCore plugin to be queried with the full token list. -/
theorem c1_fallback_routes_no_plugins :
    wPlugCalc.isCore = true
    ∧ matchesKeyword (keywordOf "xyz hello") wPlugCalc = false
    ∧ (matchedPlugins [wPlugCalc] "xyz hello").isEmpty = true
    ∧ routePlugins [wPlugCalc] "xyz hello" = [] := by
  decide

/-- C2, evaluated at a failing input, for every choice of providers:
when the routed set is empty no provider call is issued, but instead of
delivering an empty sequence the handler rejects, because reducing the
empty result-set array with no initial value throws a TypeError before
the response is sent. -/
theorem c2_empty_routing_rejects (ε : Type) (scorer : String → String → ℚ) (n : Nat)
    (qr : Plugin → List String → Except ε (List Item))
    (qh : Plugin → String → Except ε (List Item)) :
    routePlugins [wPlugCalc] "xyz hello" = []
    ∧ handleQueryCommand scorer n qr qh [wPlugCalc] "xyz hello"
        = Except.error QueryError.emptyReduce := by
  have hroute : routePlugins [wPlugCalc] "xyz hello" = [] := by decide
  refine ⟨hroute, ?_⟩
  unfold handleQueryCommand
  rw [hroute]
  rfl

/-- C3 counterexample: a core plugin whose keyword matches and whose
query string is empty is routed in results mode, not helper mode,
because the isCore branch of the display selection takes precedence. -/
theorem c3_core_keyword_results_counterexample :
    kwTruthy wPlugCalc.keyword = true
    ∧ (queryStringOf "calc").isEmpty = true
    ∧ routePlugins [wPlugCalc] "calc" = [(wPlugCalc, ProviderCall.results [])]
    ∧ (wPlugCalc, ProviderCall.helper "calc") ∉ routePlugins [wPlugCalc] "calc" := by
  decide

/-- C3 as amended: for every NON-core plugin in the matched set with a
truthy keyword, the routed call is a helper call with the keyword
exactly when the string after the keyword is empty, and otherwise a
results call with the stripped argument tokens. -/
theorem c3_helper_mode_amended (plugins : List Plugin) (phrase : String) (p : Plugin)
    (hmem : p ∈ plugins) (hkw : kwTruthy p.keyword = true)
    (hmatch : matchesKeyword (keywordOf phrase) p = true) (hcore : p.isCore = false)
    (c : ProviderCall) :
    ((p, c) ∈ routePlugins plugins phrase ↔
      c = if (queryStringOf phrase).isEmpty then ProviderCall.helper (keywordOf phrase)
          else ProviderCall.results (argsOf phrase)) := by
  have hp : p ∈ matchedPlugins plugins phrase := List.mem_filter.mpr ⟨hmem, hmatch⟩
  have hne : (matchedPlugins plugins phrase).isEmpty = false := by
    cases hml : matchedPlugins plugins phrase with
    | nil => rw [hml] at hp; exact absurd hp (List.not_mem_nil p)
    | cons q t => rfl
  have hroute : routePlugins plugins phrase
      = (matchedPlugins plugins phrase).map (fun q => (q, decisionFor phrase q)) := by
    unfold routePlugins
    simp [hne]
  have hdec : decisionFor phrase p
      = if (queryStringOf phrase).isEmpty then ProviderCall.helper (keywordOf phrase)
        else ProviderCall.results (argsOf phrase) := by
    unfold decisionFor displayFor
    rw [hcore, hkw]
    simp only [Bool.false_and, Bool.true_and, if_false]
    cases hq : (queryStringOf phrase).isEmpty
    · simp [hkw]
    · simp
  rw [hroute]
  constructor
  · intro hin
    rcases List.mem_map.mp hin with ⟨q, hq2, heq⟩
    have hq3 : q = p := congrArg Prod.fst heq
    have hc : decisionFor phrase q = c := congrArg Prod.snd heq
    rw [hq3] at hc
    rw [← hc, hdec]
  · intro hc
    rw [hc, ← hdec]
    exact List.mem_map_of_mem _ hp

/-- C3 witness: the non-core calc plugin with a non-empty argument
string is routed in results mode with the stripped arguments. -/
theorem c3_helper_mode_witness :
    (wCalcUser, ProviderCall.results ["2+2"]) ∈ routePlugins [wCalcUser] "calc 2+2" :=
  (c3_helper_mode_amended [wCalcUser] "calc 2+2" wCalcUser (by decide) (by decide)
    (by decide) (by decide) (ProviderCall.results ["2+2"])).mpr (by decide)

/-- C9, evaluated at the failing input: a batch containing one item
with an absent title makes the whole ranking pass fail (the source
lower-cases the title with no guard), so no result set is delivered;
there is no safe fallback as the claim requires. -/
theorem c9_missing_title_fails_batch :
    handleQueryCommand wScorer0 20 wQrOkBad wQhOkNil [wPlugNoKw] "hi"
      = Except.error QueryError.missingTitle := by
  rfl

/-- C4 counterexample: with a result bound of one, an item whose score
is exactly zero survives the threshold filter yet does not appear in
the delivered output, so appearing in the output is not equivalent to
having a qualifying score. -/
theorem c4_cap_excludes_zero_score_counterexample :
    itemScore wScorer0 "q" wItemB = 0
    ∧ wItemB ∈ (jsSortByScore (itemScore wScorer0 "q") [wItemA, wItemB]).filter
        (keepItem (itemScore wScorer0 "q"))
    ∧ wItemB ∉ rankedOutput (itemScore wScorer0 "q") 1 [wItemA, wItemB] := by
  decide

/-- C4 as amended: every delivered item has score exactly zero or
strictly above one quarter, and an item of the sorted batch survives
the threshold filter exactly when its score is zero or strictly above
one quarter; the delivered output is additionally truncated to the
configured maximum. -/
theorem c4_filter_threshold_amended (scorer : String → String → ℚ) (kw : String)
    (n : Nat) (items : List Item) (i : Item) :
    (i ∈ rankedOutput (itemScore scorer kw) n items →
      itemScore scorer kw i = 0 ∨ (1 : ℚ) / 4 < itemScore scorer kw i)
    ∧ (i ∈ (jsSortByScore (itemScore scorer kw) items).filter (keepItem (itemScore scorer kw)) ↔
        i ∈ jsSortByScore (itemScore scorer kw) items ∧
          (itemScore scorer kw i = 0 ∨ (1 : ℚ) / 4 < itemScore scorer kw i)) := by
  constructor
  · intro h
    simp only [rankedOutput] at h
    have h2 := List.mem_of_mem_take h
    exact (keepItem_iff _ i).mp (List.mem_filter.mp h2).2
  · constructor
    · intro h
      rcases List.mem_filter.mp h with ⟨hmem, hkeep⟩
      exact ⟨hmem, (keepItem_iff _ i).mp hkeep⟩
    · intro h
      exact List.mem_filter.mpr ⟨h.1, (keepItem_iff _ i).mpr h.2⟩

/-- C4 witness: a concrete delivered item has a qualifying score. -/
theorem c4_filter_threshold_witness :
    itemScore wScorer0 "q" wItemA = 0 ∨ (1 : ℚ) / 4 < itemScore wScorer0 "q" wItemA :=
  (c4_filter_threshold_amended wScorer0 "q" 1 [wItemA, wItemB] wItemA).1 (by decide)

/-- C5: the delivered sequence is ordered by non-increasing score, and
for every score value the delivered items with that score form a
subsequence of the aggregated input items with that score, so equal
scores keep their relative input order. -/
theorem c5_sorted_stable (scorer : String → String → ℚ) (kw : String)
    (n : Nat) (items : List Item) :
    List.Pairwise (fun a b => itemScore scorer kw b ≤ itemScore scorer kw a)
      (rankedOutput (itemScore scorer kw) n items)
    ∧ ∀ s : ℚ,
        List.Sublist
          ((rankedOutput (itemScore scorer kw) n items).filter
            (fun i => decide (itemScore scorer kw i = s)))
          (items.filter (fun i => decide (itemScore scorer kw i = s))) := by
  constructor
  · exact (pairwise_jsSortByScore (itemScore scorer kw) items).sublist
      (rankedOutput_sublist_sort (itemScore scorer kw) n items)
  · intro s
    have h2 := (rankedOutput_sublist_sort (itemScore scorer kw) n items).filter
      (fun i => decide (itemScore scorer kw i = s))
    rw [filter_jsSortByScore] at h2
    exact h2

/-- C7: if any routed provider call rejects, the whole join rejects
with a provider error and no result set is delivered for the query
cycle. -/
theorem c7_provider_failure_fails_join (ε : Type) (scorer : String → String → ℚ)
    (n : Nat) (qr : Plugin → List String → Except ε (List Item))
    (qh : Plugin → String → Except ε (List Item))
    (plugins : List Plugin) (phrase : String)
    (h : ∃ d ∈ routePlugins plugins phrase, ∃ e : ε, runCall qr qh d = Except.error e) :
    ∃ e2 : ε, handleQueryCommand scorer n qr qh plugins phrase
      = Except.error (QueryError.provider e2) := by
  rcases h with ⟨d, hd, e, hrun⟩
  rcases sequenceCalls_error ((routePlugins plugins phrase).map (runCall qr qh))
      ⟨runCall qr qh d, List.mem_map_of_mem _ hd, e, hrun⟩ with ⟨e2, hseq⟩
  refine ⟨e2, ?_⟩
  unfold handleQueryCommand
  rw [hseq]

/-- C7 witness: a concrete query whose single provider call rejects
produces a provider error. -/
theorem c7_provider_failure_fails_join_witness :
    ∃ e2 : String, handleQueryCommand wScorer0 20 wQrErr wQhErr [wPlugNoKw] "hi"
      = Except.error (QueryError.provider e2) :=
  c7_provider_failure_fails_join String wScorer0 20 wQrErr wQhErr [wPlugNoKw] "hi"
    ⟨(wPlugNoKw, ProviderCall.results ["hi"]), by decide, "boom", rfl⟩

/-- C8: for a scorer satisfying the case-normalization contract of the
spec, changing only the letter case of the keyword never changes any
item score, changing only the letter case of titles never changes an
item score or its filter outcome, and the delivered outputs for
case-variant keywords and case-variant batches agree pointwise in the
same order. -/
theorem c8_case_insensitive (scorer : String → String → ℚ)
    (hs : ∀ c q, scorer c q = scorer (lowerStr c) (lowerStr q))
    (kw kw2 : String) (hk : lowerStr kw = lowerStr kw2)
    (n : Nat) (items items2 : List Item) (hitems : List.Forall₂ CaseEq items items2) :
    (∀ i, itemScore scorer kw i = itemScore scorer kw2 i)
    ∧ (∀ a b, CaseEq a b →
        itemScore scorer kw a = itemScore scorer kw b
        ∧ keepItem (itemScore scorer kw) a = keepItem (itemScore scorer kw) b)
    ∧ List.Forall₂ CaseEq (rankedOutput (itemScore scorer kw) n items)
        (rankedOutput (itemScore scorer kw2) n items2) := by
  have hkwc : ∀ i, itemScore scorer kw i = itemScore scorer kw2 i :=
    fun i => itemScore_keyword_congr scorer hs kw kw2 hk i
  have hcec : ∀ x y, CaseEq x y → itemScore scorer kw x = itemScore scorer kw y :=
    fun x y h => itemScore_caseEq scorer kw h
  refine ⟨hkwc, fun a b h => ⟨hcec a b h, ?_⟩, ?_⟩
  · unfold keepItem
    rw [hcec a b h]
  · have hfun : itemScore scorer kw2 = itemScore scorer kw :=
      funext fun i => (hkwc i).symm
    rw [hfun]
    exact forall2_rankedOutput hcec n hitems

/-- C8 witness: a concrete case-variant keyword and batch produce
pointwise case-equivalent outputs. -/
theorem c8_case_insensitive_witness :
    List.Forall₂ CaseEq (rankedOutput (itemScore wScorerHalf "A") 5 [⟨some "X", "z"⟩])
      (rankedOutput (itemScore wScorerHalf "a") 5 [⟨some "x", "z"⟩]) :=
  (c8_case_insensitive wScorerHalf (fun _ _ => rfl) "A" "a" (by decide) 5
    [⟨some "X", "z"⟩] [⟨some "x", "z"⟩]
    (List.Forall₂.cons ⟨by decide, rfl⟩ List.Forall₂.nil)).2.2

/-- C10: after every handled detail request, hit or miss, the cache
maps the item key to exactly the content that was delivered, because
the delivered content is written back under the serialized key before
the response in both branches. -/
theorem c10_cache_write_on_response (α : Type) (pluginPath stringify : α → String)
    (retrieve : α → String) (c : Cache) (item : α) :
    cacheGet (handleItemDetailsRequest pluginPath stringify retrieve c item).cache
        (detailNamespace pluginPath item) (stringify item)
      = some (handleItemDetailsRequest pluginPath stringify retrieve c item).content :=
  cacheGet_handle_self pluginPath stringify retrieve c item

/-- C6: once a detail request for a payload has resolved and stored
its content, any later request for the identical payload, after any
batch of interleaved requests, is answered from the cache with the
previously stored content and does not invoke the plugin detail entry
point (the serialization is injective on payloads). -/
theorem c6_detail_cache_no_reinvoke (α : Type) (pluginPath stringify : α → String)
    (retrieve : α → String) (hinj : Function.Injective stringify)
    (c0 : Cache) (item : α) (rest : List α) :
    (handleItemDetailsRequest pluginPath stringify retrieve
      (processRequests pluginPath stringify retrieve
        (handleItemDetailsRequest pluginPath stringify retrieve c0 item).cache rest)
      item).invokedPlugin = false
    ∧ (handleItemDetailsRequest pluginPath stringify retrieve
        (processRequests pluginPath stringify retrieve
          (handleItemDetailsRequest pluginPath stringify retrieve c0 item).cache rest)
        item).content
      = (handleItemDetailsRequest pluginPath stringify retrieve c0 item).content := by
  have h1 := cacheGet_handle_self pluginPath stringify retrieve c0 item
  have h2 := cacheGet_processRequests pluginPath stringify retrieve hinj item
    (handleItemDetailsRequest pluginPath stringify retrieve c0 item).content rest
    (handleItemDetailsRequest pluginPath stringify retrieve c0 item).cache h1
  rw [handle_of_hit pluginPath stringify retrieve _ item _ h2]
  exact ⟨rfl, rfl⟩

/-- C6 witness: a concrete two-payload run answers the repeated
request from the cache without invoking the plugin. -/
theorem c6_detail_cache_no_reinvoke_witness :
    (handleItemDetailsRequest wPathB wStringifyB wRetrieveB
      (processRequests wPathB wStringifyB wRetrieveB
        (handleItemDetailsRequest wPathB wStringifyB wRetrieveB [] true).cache
        [false, true])
      true).invokedPlugin = false
    ∧ (handleItemDetailsRequest wPathB wStringifyB wRetrieveB
        (processRequests wPathB wStringifyB wRetrieveB
          (handleItemDetailsRequest wPathB wStringifyB wRetrieveB [] true).cache
          [false, true])
        true).content
      = (handleItemDetailsRequest wPathB wStringifyB wRetrieveB [] true).content :=
  c6_detail_cache_no_reinvoke Bool wPathB wStringifyB wRetrieveB
    (fun a b h => by
      cases a <;> cases b <;> first | rfl | exact absurd h (by decide))
    [] true [false, true]


end Dext
